import Mathlib

/-!
Verification of the WAV-to-IMG spectrogram pipeline (src/WAV-to-IMG.py).

The script has three stages: `data_acquisition` loads a WAV file and keeps
only the first channel; `plot_fft_freq_chart` calls
`scipy.signal.spectrogram` to build a power surface, calls
`detect_valid_frequency_range` to find the occupied sub-band, restricts the
surface to that band, and calibrates the time and frequency axes before
rendering.

Shallow embedding conventions: numpy float arrays become `List ℚ` /
`List (List ℚ)` with exact rational arithmetic; `datetime` / `timedelta`
values become rationals (seconds since an epoch), so `datetime + timedelta`
is rational addition; a Python function that can raise (or return `None`)
returns an `Option` / `Except`.
-/

namespace WavToImg

/-- The epsilon `1e-10` added at line 33 of the source before taking the
logarithm (`10 * np.log10(np.max(Pxx, axis=1) + 1e-10)`). -/
def eps : ℚ := 1 / 10 ^ 10

/-- The fixed detection threshold `threshold_db = 20` set at line 30. -/
def threshold_db : ℚ := 20

/-- Embeds `np.max(row)` for one row of `Pxx` (`np.max(Pxx, axis=1)` takes
this row-wise). `np.max` raises on an empty row; callers guard emptiness
separately, so the `[]` branch value is never used. -/
def rowMax : List ℚ → ℚ
  | [] => 0
  | a :: l => l.foldl max a

/-- Embeds `np.min` of a one-dimensional array (`time_array.min()` at
line 100). `np.min` raises on an empty array; callers guard emptiness
separately, so the `[]` branch value is never used. -/
def listMin : List ℚ → ℚ
  | [] => 0
  | a :: l => l.foldl min a

/-- Index of the first `true` in a boolean list, if any. -/
def firstTrue? : List Bool → Option ℕ
  | [] => none
  | true :: _ => some 0
  | false :: l => (firstTrue? l).map (· + 1)

/-- Embeds `np.argmax` on a boolean array: the index of the first `True`,
and `0` when every entry is `False` (all entries are then equal, and
`argmax` returns the first maximiser). -/
def argmaxBool (l : List Bool) : ℕ :=
  (firstTrue? l).getD 0

/-- Embeds numpy one-dimensional integer indexing `a[i]`: a negative index
wraps once by the length; an index out of `[-len, len)` raises (modelled as
`none`). -/
def npGet (l : List ℚ) (i : ℤ) : Option ℚ :=
  if 0 ≤ i then l[i.toNat]?
  else if 0 ≤ i + l.length then l[(i + l.length).toNat]?
  else none

/-- Embeds the per-row threshold test of lines 33 and 36/40: row `r`
satisfies `10 * log10(max(r) + 1e-10) > threshold_db`. Since `log10` is
strictly increasing on the positives, over the reals this comparison is
equivalent to `max(r) + 1e-10 > 10 ^ (threshold_db / 10) = 100`, which is
the decidable rational form used here; the lemma
`rowExceeds_iff_logb` below proves the equivalence against the real
logarithm form. -/
def rowExceeds (r : List ℚ) : Bool :=
  decide (100 < rowMax r + eps)

/-- Embeds `detect_valid_frequency_range(freqs_array, Pxx)` (lines 27-49).
The body computes `max_db_per_freq`, takes `argmax` of the threshold
comparison for the minimum index, and `len(freqs_array) - argmax(reversed
comparison) - 1` for the maximum index. The bare `except` returns `None`;
inside the `try`, an exception is raised exactly when `Pxx` is empty
(`np.argmax` of an empty sequence), a row is empty (`np.max` of an empty
axis), or an index falls outside `freqs_array` (numpy `IndexError`). -/
def detect_valid_frequency_range (freqs_array : List ℚ) (Pxx : List (List ℚ)) :
    Option (ℚ × ℚ) :=
  if Pxx.isEmpty || Pxx.any List.isEmpty then none
  else
    let exceed := Pxx.map rowExceeds
    let min_freq_index : ℤ := (argmaxBool exceed : ℤ)
    let max_freq_index : ℤ :=
      (freqs_array.length : ℤ) - (argmaxBool exceed.reverse : ℤ) - 1
    match npGet freqs_array min_freq_index, npGet freqs_array max_freq_index with
    | some mn, some mx => some (mn, mx)
    | _, _ => none

/-- The threshold comparison of the spec's wording: row `r` has
`10 * log10(max_power + ε) > 20 dB`, stated with the real-number
logarithm. -/
def row_exceeds_db (r : List ℚ) : Prop :=
  (threshold_db : ℝ) < 10 * Real.logb 10 ((rowMax r + eps : ℚ) : ℝ)

lemma foldl_max_mem (l : List ℚ) (a : ℚ) : l.foldl max a ∈ a :: l := by
  induction l generalizing a with
  | nil => simp
  | cons b t ih =>
    have h := ih (max a b)
    simp only [List.foldl_cons]
    rcases List.mem_cons.mp h with h1 | h1
    · rcases max_choice a b with h2 | h2
      · rw [h1, h2]; exact List.mem_cons_self _ _
      · rw [h1, h2]; exact List.mem_cons_of_mem _ (List.mem_cons_self _ _)
    · exact List.mem_cons_of_mem _ (List.mem_cons_of_mem _ h1)

lemma rowMax_mem (r : List ℚ) (h : r ≠ []) : rowMax r ∈ r := by
  cases r with
  | nil => exact absurd rfl h
  | cons a l => simpa [rowMax] using foldl_max_mem l a

lemma rowMax_nonneg (r : List ℚ) (h : r ≠ []) (hr : ∀ p ∈ r, 0 ≤ p) :
    0 ≤ rowMax r :=
  hr _ (rowMax_mem r h)

/-- The decidable rational comparison embedded in `rowExceeds` is exactly
the dB comparison `10 * log10(max + ε) > 20` of line 33/36 of the source:
`log10` is strictly increasing on the positives and `10 ^ 2 = 100`. -/
lemma rowExceeds_iff_logb (r : List ℚ) (h : 0 ≤ rowMax r) :
    rowExceeds r = true ↔ row_exceeds_db r := by
  have hx : (0 : ℝ) < ((rowMax r + eps : ℚ) : ℝ) := by
    have h1 : (0 : ℚ) < rowMax r + eps := by
      have : (0 : ℚ) < eps := by norm_num [eps]
      linarith
    exact_mod_cast h1
  have h10 : (1 : ℝ) < 10 := by norm_num
  have hpow : (10 : ℝ) ^ (2 : ℝ) = 100 := by
    rw [show (2 : ℝ) = ((2 : ℕ) : ℝ) by norm_num, Real.rpow_natCast]
    norm_num
  constructor
  · intro hb
    have h100 : (100 : ℚ) < rowMax r + eps := of_decide_eq_true hb
    have h100R : (100 : ℝ) < ((rowMax r + eps : ℚ) : ℝ) := by exact_mod_cast h100
    have h2 : (2 : ℝ) < Real.logb 10 ((rowMax r + eps : ℚ) : ℝ) := by
      rw [Real.lt_logb_iff_rpow_lt h10 hx, hpow]
      exact h100R
    have : (threshold_db : ℝ) = 20 := by norm_num [threshold_db]
    rw [row_exceeds_db, this]
    linarith
  · intro hb
    rw [row_exceeds_db] at hb
    have ht : (threshold_db : ℝ) = 20 := by norm_num [threshold_db]
    rw [ht] at hb
    have h2 : (2 : ℝ) < Real.logb 10 ((rowMax r + eps : ℚ) : ℝ) := by linarith
    rw [Real.lt_logb_iff_rpow_lt h10 hx, hpow] at h2
    have h100 : (100 : ℚ) < rowMax r + eps := by exact_mod_cast h2
    exact decide_eq_true h100

lemma firstTrue?_eq_some (l : List Bool) (i : ℕ)
    (hi : l[i]? = some true) (hmin : ∀ k, k < i → l[k]? = some false) :
    firstTrue? l = some i := by
  induction l generalizing i with
  | nil => simp at hi
  | cons b t ih =>
    cases i with
    | zero =>
      simp only [List.getElem?_cons_zero, Option.some.injEq] at hi
      subst hi
      rfl
    | succ j =>
      have hb : b = false := by
        have := hmin 0 (Nat.succ_pos j)
        simpa using this
      subst hb
      have ht : firstTrue? t = some j := by
        apply ih
        · simpa using hi
        · intro k hk
          have := hmin (k + 1) (Nat.succ_lt_succ hk)
          simpa using this
      simp [firstTrue?, ht]

lemma argmaxBool_eq (l : List Bool) (i : ℕ)
    (hi : l[i]? = some true) (hmin : ∀ k, k < i → l[k]? = some false) :
    argmaxBool l = i := by
  rw [argmaxBool, firstTrue?_eq_some l i hi hmin]
  rfl

lemma firstTrue?_eq_none (l : List Bool) (h : ∀ b ∈ l, b = false) :
    firstTrue? l = none := by
  induction l with
  | nil => rfl
  | cons b t ih =>
    have hb : b = false := h b (List.mem_cons_self b t)
    subst hb
    have : firstTrue? t = none := ih fun x hx => h x (List.mem_cons_of_mem _ hx)
    simp [firstTrue?, this]

lemma getElem?_eq_some_getD {α : Type} (l : List α) (k : ℕ) (d : α)
    (h : k < l.length) : l[k]? = some (l.getD k d) := by
  rw [List.getElem?_eq_getElem h, List.getD_eq_getElem l d h]

lemma getD_mem {α : Type} (l : List α) (k : ℕ) (d : α) (h : k < l.length) :
    l.getD k d ∈ l := by
  rw [List.getD_eq_getElem l d h]
  exact List.getElem_mem h

/-- C6: for a surface with at least one frequency row above the threshold,
`detect_valid_frequency_range` computes each row's maximum power over all
time columns, compares `10 * log10(max_power + 1e-10)` against the 20 dB
threshold, and returns the frequency of the first (lowest-indexed)
exceeding row as `min_freq` and the frequency of the last (highest-indexed)
exceeding row — found by scanning the reversed per-row array — as
`max_freq`. -/
theorem detect_returns_first_and_last_exceeding
    (freqs_array : List ℚ) (Pxx : List (List ℚ)) (i j : ℕ)
    (hlen : freqs_array.length = Pxx.length)
    (hrows : ∀ r ∈ Pxx, r ≠ [])
    (hnn : ∀ r ∈ Pxx, ∀ p ∈ r, 0 ≤ p)
    (hi : i < Pxx.length) (hj : j < Pxx.length)
    (hi1 : row_exceeds_db (Pxx.getD i []))
    (hi2 : ∀ k, k < i → ¬ row_exceeds_db (Pxx.getD k []))
    (hj1 : row_exceeds_db (Pxx.getD j []))
    (hj2 : ∀ k, j < k → k < Pxx.length → ¬ row_exceeds_db (Pxx.getD k [])) :
    detect_valid_frequency_range freqs_array Pxx =
      some (freqs_array.getD i 0, freqs_array.getD j 0) := by
  have hne : Pxx ≠ [] := List.ne_nil_of_length_pos (Nat.lt_of_le_of_lt (Nat.zero_le i) hi)
  have hbr : ∀ k, k < Pxx.length →
      (rowExceeds (Pxx.getD k []) = true ↔ row_exceeds_db (Pxx.getD k [])) := by
    intro k hk
    have hmem : Pxx.getD k [] ∈ Pxx := getD_mem Pxx k [] hk
    exact rowExceeds_iff_logb _ (rowMax_nonneg _ (hrows _ hmem) (hnn _ hmem))
  have hbT : ∀ k, k < Pxx.length → row_exceeds_db (Pxx.getD k []) →
      (Pxx.map rowExceeds)[k]? = some true := by
    intro k hk hdb
    rw [List.getElem?_map, getElem?_eq_some_getD Pxx k [] hk, Option.map_some']
    exact congrArg some ((hbr k hk).mpr hdb)
  have hbF : ∀ k, k < Pxx.length → ¬ row_exceeds_db (Pxx.getD k []) →
      (Pxx.map rowExceeds)[k]? = some false := by
    intro k hk hdb
    rw [List.getElem?_map, getElem?_eq_some_getD Pxx k [] hk]
    have : rowExceeds (Pxx.getD k []) = false := by
      cases hre : rowExceeds (Pxx.getD k []) with
      | false => rfl
      | true => exact absurd ((hbr k hk).mp hre) hdb
    rw [Option.map_some']
    exact congrArg some this
  have hlenmap : (Pxx.map rowExceeds).length = Pxx.length := List.length_map Pxx rowExceeds
  have hargmin : argmaxBool (Pxx.map rowExceeds) = i :=
    argmaxBool_eq _ i (hbT i hi hi1) fun k hk => hbF k (Nat.lt_trans hk hi) (hi2 k hk)
  have hargmax : argmaxBool (Pxx.map rowExceeds).reverse = Pxx.length - 1 - j := by
    apply argmaxBool_eq
    · rw [List.getElem?_reverse (by omega)]
      rw [show (Pxx.map rowExceeds).length - 1 - (Pxx.length - 1 - j) = j by omega]
      exact hbT j hj hj1
    · intro k hk
      rw [List.getElem?_reverse (by omega)]
      rw [hlenmap]
      exact hbF (Pxx.length - 1 - k) (by omega) (hj2 _ (by omega) (by omega))
  have hguard : ¬ ((Pxx.isEmpty || Pxx.any List.isEmpty) = true) := by
    rw [Bool.or_eq_true, not_or]
    constructor
    · simp [List.isEmpty_eq_false.mpr hne]
    · rw [Bool.not_eq_true, List.any_eq_false]
      intro r hr
      simp [List.isEmpty_eq_false.mpr (hrows r hr)]
  have hminget : npGet freqs_array (i : ℤ) = some (freqs_array.getD i 0) := by
    rw [npGet, if_pos (Int.ofNat_nonneg i)]
    rw [show ((i : ℤ)).toNat = i from rfl]
    exact getElem?_eq_some_getD freqs_array i 0 (by omega)
  have hidx : (freqs_array.length : ℤ) - ((Pxx.length - 1 - j : ℕ) : ℤ) - 1 = (j : ℤ) := by
    omega
  have hmaxget : npGet freqs_array ((freqs_array.length : ℤ) - ((Pxx.length - 1 - j : ℕ) : ℤ) - 1) =
      some (freqs_array.getD j 0) := by
    rw [hidx, npGet, if_pos (Int.ofNat_nonneg j)]
    rw [show ((j : ℤ)).toNat = j from rfl]
    exact getElem?_eq_some_getD freqs_array j 0 (by omega)
  rw [detect_valid_frequency_range, if_neg hguard]
  simp only [hargmin, hargmax, hminget, hmaxget]

/-- Witness for C6: on the surface `[[0], [101], [0]]` with frequencies
`[5, 7, 9]`, row 1 is both the first and the last row above the threshold,
and detection returns `(7, 7)`. -/
theorem detect_first_last_witness :
    detect_valid_frequency_range [5, 7, 9] [[0], [101], [0]] = some (7, 7) := by
  have hpos : row_exceeds_db (([[0], [101], [0]] : List (List ℚ)).getD 1 []) := by
    apply (rowExceeds_iff_logb _ (by norm_num [rowMax])).mp
    norm_num [rowExceeds, rowMax, eps]
  have hneg0 : ¬ row_exceeds_db (([[0], [101], [0]] : List (List ℚ)).getD 0 []) := by
    intro hdb
    have := (rowExceeds_iff_logb _ (by norm_num [rowMax])).mpr hdb
    norm_num [rowExceeds, rowMax, eps] at this
  have hneg2 : ¬ row_exceeds_db (([[0], [101], [0]] : List (List ℚ)).getD 2 []) := by
    intro hdb
    have := (rowExceeds_iff_logb _ (by norm_num [rowMax])).mpr hdb
    norm_num [rowExceeds, rowMax, eps] at this
  have hfirst : ∀ k, k < 1 → ¬ row_exceeds_db (([[0], [101], [0]] : List (List ℚ)).getD k []) := by
    intro k hk
    have hk0 : k = 0 := by omega
    rw [hk0]
    exact hneg0
  have hlast : ∀ k, 1 < k → k < ([[0], [101], [0]] : List (List ℚ)).length →
      ¬ row_exceeds_db (([[0], [101], [0]] : List (List ℚ)).getD k []) := by
    intro k hk1 hk2
    norm_num at hk2
    have hk0 : k = 2 := by omega
    rw [hk0]
    exact hneg2
  have h := detect_returns_first_and_last_exceeding [5, 7, 9] [[0], [101], [0]] 1 1
    (by norm_num) (by norm_num) (by norm_num) (by norm_num) (by norm_num)
    hpos hfirst hpos hlast
  simpa using h

/-- C1: on an all-silent surface (no frequency row's max power reaches the
threshold in dB), `detect_valid_frequency_range` does NOT fail: `np.argmax`
of the all-`False` comparison array returns index 0 on both scans, so the
function returns the pair `(freqs_array[0], freqs_array[len - 1])` — the
index-0 false positive the spec forbids. Evaluated at the failing input
`freqs_array = [0, 1]`, `Pxx = [[0, 0], [0, 0]]`, where every max power is
zero and `10 * log10(0 + 1e-10) = -100 < 20`. -/
theorem detect_silent_surface_returns_pair :
    detect_valid_frequency_range [0, 1] [[0, 0], [0, 0]] = some (0, 1) := by
  norm_num [detect_valid_frequency_range, rowExceeds, rowMax, eps, argmaxBool,
    firstTrue?, npGet]

/-- Embeds lines 100-102 of `plot_fft_freq_chart`:
`start_time = utc_time + timedelta(seconds=time_array.min())`, then
`time_array = [start_time + timedelta(seconds=sec) for sec in time_array]`,
then `time_array = np.insert(time_array, 0, start_time)`. Datetimes are
rationals (seconds since an epoch), so `datetime + timedelta` is
addition. -/
def calibrate_time_axis (utc_time : ℚ) (time_array : List ℚ) : List ℚ :=
  let start_time := utc_time + listMin time_array
  start_time :: time_array.map (fun sec => start_time + sec)

/-- Embeds lines 107-108 of `plot_fft_freq_chart`:
`base_freq_hz = float(freq_str[:-2])` reads the module-level global
`freq_str` (represented here by its parsed numeric value `freq_str_val`),
NOT the function parameter `base_freq_mhz`, and
`freqs_array_display = (base_freq_hz + freqs_array_display) / 1e6`. The
parameter `base_freq_mhz` is carried because the source function takes it;
the body never reads it (it is only interpolated into the axis label at
line 121). -/
def calibrated_freq_axis (freq_str_val : ℚ) (base_freq_mhz : ℚ)
    (freqs_array_display : List ℚ) : List ℚ :=
  let base_freq_hz := freq_str_val
  freqs_array_display.map (fun f => (base_freq_hz + f) / 1000000)

/-- State-passing embedding of a call to `detect_valid_frequency_range`:
the result together with the final values of the two array arguments. The
source body only reads them: `np.max` allocates a fresh array,
`max_db_per_freq[::-1]` is a non-mutating reversed view of that fresh
array, and `freqs_array` is only indexed — no in-place operation occurs,
so the final state equals the initial one. -/
def detect_run (freqs_array : List ℚ) (Pxx : List (List ℚ)) :
    (List ℚ × List (List ℚ)) × Option (ℚ × ℚ) :=
  ((freqs_array, Pxx), detect_valid_frequency_range freqs_array Pxx)

/-- Embeds `data_acquisition` (lines 53-64) after a successful
`scipy.io.wavfile.read`: the raw result is either a one-dimensional array
(one channel) or a two-dimensional frames-by-channels array. -/
inductive AudioData where
  | mono (samples : List ℤ)
  | multi (frames : List (List ℤ))

/-- Embeds the numpy column selection `arr[:, j]` on a frames-by-channels
array. -/
def npColumn (frames : List (List ℤ)) (j : ℕ) : List ℤ :=
  frames.map (fun fr => fr.getD j 0)

/-- Embeds lines 56-64 of `data_acquisition`: `read` yields
`(sample_rate, linear_array)`; when `linear_array.ndim > 1` the code keeps
only channel 0 via `linear_array[:, 0]` (printing an informational note),
and the sample rate is returned unchanged in both cases. The `except`
branches (lines 67-72) concern an unreadable file, before any samples
exist, and are outside this embedding of a successfully loaded source. -/
def data_acquisition (sample_rate : ℤ) (wav : AudioData) : ℤ × List ℤ :=
  match wav with
  | .mono linear_array => (sample_rate, linear_array)
  | .multi frames => (sample_rate, npColumn frames 0)

/-- C2 counterexample: with start timestamp `0` and relative times
`[1, 2]` seconds, lines 100-102 produce the axis `[1, 2, 3]`: its first
entry is `1 ≠ 0` (the start timestamp), and the entry for time column 0 is
`2 ≠ 0 + 1 = start_time + relative_time`, because `time_array.min()` is
added twice — once into `start_time` and once per column. -/
theorem calibrate_time_axis_drifts_at_t0 :
    calibrate_time_axis 0 [1, 2] = [1, 2, 3] ∧
    (calibrate_time_axis 0 [1, 2]).head? ≠ some 0 ∧
    (calibrate_time_axis 0 [1, 2])[1]? ≠ some (0 + 1) := by
  norm_num [calibrate_time_axis, listMin]

/-- C2 amended: every time column `k` is calibrated to
`utc_time + min(time_array) + time_array[k]` (the relative offset is
shifted by the minimum relative time, which scipy makes strictly positive),
and the first entry of the axis — the extra point inserted at line 102 —
equals `utc_time + min(time_array)`, not `utc_time`; the original claim
holds exactly when `min(time_array) = 0`. -/
theorem calibrate_time_axis_spec (utc_time : ℚ) (time_array : List ℚ)
    (h : time_array ≠ []) :
    (calibrate_time_axis utc_time time_array).head? =
      some (utc_time + listMin time_array) ∧
    ∀ k, k < time_array.length →
      (calibrate_time_axis utc_time time_array)[k + 1]? =
        some (utc_time + listMin time_array + time_array.getD k 0) := by
  constructor
  · rfl
  · intro k hk
    rw [calibrate_time_axis]
    rw [List.getElem?_cons_succ, List.getElem?_map,
      getElem?_eq_some_getD time_array k 0 hk, Option.map_some']

/-- Witness for C2 (amended): at `utc_time = 100`, `time_array = [2, 5]`,
the axis head is `102` and column 1 is calibrated to `107`. -/
theorem calibrate_time_axis_spec_witness :
    (calibrate_time_axis 100 [2, 5]).head? = some 102 ∧
    (calibrate_time_axis 100 [2, 5])[2]? = some 107 := by
  have h := calibrate_time_axis_spec 100 [2, 5] (List.cons_ne_nil 2 [5])
  have h1 := h.1
  have h2 := h.2 1 (by norm_num)
  norm_num [listMin] at h1 h2
  exact ⟨h1, h2⟩

/-- C8: two runs of the frequency-axis calibration that differ only in the
`base_freq_mhz` argument, with the module-level `freq_str` value unchanged,
produce identical calibrated axes: `base_freq_hz` is computed from the
global `freq_str`, so the `base_freq_mhz` parameter never influences the
axis. -/
theorem calibrated_freq_axis_ignores_base_param (freq_str_val b1 b2 : ℚ)
    (freqs_array_display : List ℚ) :
    calibrated_freq_axis freq_str_val b1 freqs_array_display =
      calibrated_freq_axis freq_str_val b2 freqs_array_display := rfl

/-- C10: detection is pure and idempotent. The state-passing run leaves
both array arguments exactly as they were, and a second run on the
(unchanged) arrays returns the same `(min_freq, max_freq)` result as the
first. -/
theorem detect_run_pure_idempotent (freqs_array : List ℚ) (Pxx : List (List ℚ)) :
    (detect_run freqs_array Pxx).1 = (freqs_array, Pxx) ∧
    (detect_run (detect_run freqs_array Pxx).1.1 (detect_run freqs_array Pxx).1.2).2 =
      (detect_run freqs_array Pxx).2 :=
  ⟨rfl, rfl⟩

lemma getD_zero_eq_head {α : Type} (l : List α) (d : α) (h : l ≠ []) :
    l.getD 0 d = l.head h := by
  cases l with
  | nil => exact absurd rfl h
  | cons a t => rfl

/-- C9: for a multi-channel source the loader returns the sample rate
unchanged and exactly the first channel's samples — one output sample per
frame, each equal to that frame's channel-0 value — and a single-channel
source is returned as-is. -/
theorem data_acquisition_first_channel (sample_rate : ℤ)
    (frames : List (List ℤ)) (samples : List ℤ)
    (hne : ∀ fr ∈ frames, fr ≠ []) :
    (data_acquisition sample_rate (.multi frames)).1 = sample_rate ∧
    (data_acquisition sample_rate (.multi frames)).2.length = frames.length ∧
    (∀ k, k < frames.length →
      (data_acquisition sample_rate (.multi frames)).2[k]? =
        (frames.getD k []).head? ) ∧
    data_acquisition sample_rate (.mono samples) = (sample_rate, samples) := by
  refine ⟨rfl, ?_, ?_, rfl⟩
  · exact List.length_map frames _
  · intro k hk
    have hmem : frames.getD k [] ∈ frames := getD_mem frames k [] hk
    have hner : frames.getD k [] ≠ [] := hne _ hmem
    rw [data_acquisition, npColumn, List.getElem?_map,
      getElem?_eq_some_getD frames k [] hk, Option.map_some']
    rw [getD_zero_eq_head (frames.getD k []) 0 hner]
    rw [List.head?_eq_head hner]

/-- Witness for C9: a stereo source with frames `[[1, 2], [3, 4]]` keeps
rate `8000` and maps frame 0 to its first channel value `1`. -/
theorem data_acquisition_first_channel_witness :
    (data_acquisition 8000 (.multi [[1, 2], [3, 4]])).1 = 8000 ∧
    (data_acquisition 8000 (.multi [[1, 2], [3, 4]])).2.length = 2 ∧
    (data_acquisition 8000 (.multi [[1, 2], [3, 4]])).2[0]? = some 1 := by
  have h := data_acquisition_first_channel 8000 [[1, 2], [3, 4]] [5] (by simp)
  refine ⟨h.1, by simpa using h.2.1, ?_⟩
  have h0 := h.2.2.1 0 (by norm_num)
  simpa using h0

/-- Embeds lines 90-92 of `plot_fft_freq_chart`:
`display_mask = (freqs_array >= min_freq) & (freqs_array <= max_freq)`,
then the boolean-mask row selections `freqs_array[display_mask]` and
`Pxx[display_mask]`: each sequence keeps exactly the positions where the
mask is `True`, in order. -/
def display_restrict (freqs_array : List ℚ) (Pxx : List (List ℚ))
    (min_freq max_freq : ℚ) : List ℚ × List (List ℚ) :=
  let display_mask :=
    freqs_array.map (fun f => decide (min_freq ≤ f) && decide (f ≤ max_freq))
  ((freqs_array.zip display_mask).filterMap
      (fun p => if p.2 then some p.1 else none),
   (Pxx.zip display_mask).filterMap
      (fun p => if p.2 then some p.1 else none))

/-- Models finiteness of the dB conversion at line 113,
`log_spec = 10 * np.log10(Pxx_display)`: `np.log10` yields a finite float
exactly on positive arguments (`log10(0) = -inf`, `log10(negative) = nan`),
and scaling by 10 preserves finiteness, so all entries of `log_spec` are
finite iff all entries of `Pxx_display` are positive. -/
def log_spec_all_finite (Pxx_display : List (List ℚ)) : Bool :=
  Pxx_display.all (fun row => row.all (fun p => decide (0 < p)))

/-- The data handed to the rendering sink at lines 100-116: the absolute
time axis built at lines 100-102, the absolute MHz frequency axis built at
lines 107-108, and the restricted amplitude grid `Pxx_display` whose
entry-wise dB image `log_spec = 10 * np.log10(Pxx_display)` (line 113) is
drawn at line 116; `log_spec` has exactly the shape of `grid`. -/
structure RenderedView where
  time_axis : List ℚ
  freq_axis_mhz : List ℚ
  grid : List (List ℚ)

/-- Embeds `plot_fft_freq_chart` from line 87 to line 116, given the
spectrogram output `freqs_array, time_array, Pxx` of line 79: range
detection, display-mask restriction, time calibration, frequency
calibration. When `detect_valid_frequency_range` returns `None`, the
unpacking `min_freq, max_freq = ...` at line 87 raises a `TypeError` that
the surrounding handlers (`IOError`, `ValueError`) do not catch — modelled
as `none`: no view reaches the sink. -/
def rendered_view (freqs_array time_array : List ℚ) (Pxx : List (List ℚ))
    (utc_time freq_str_val base_freq_mhz : ℚ) : Option RenderedView :=
  match detect_valid_frequency_range freqs_array Pxx with
  | none => none
  | some (min_freq, max_freq) =>
    let fd := (display_restrict freqs_array Pxx min_freq max_freq).1
    let Pd := (display_restrict freqs_array Pxx min_freq max_freq).2
    some ⟨calibrate_time_axis utc_time time_array,
          calibrated_freq_axis freq_str_val base_freq_mhz fd,
          Pd⟩

lemma mask_filterMap_length {α β : Type} (xs : List α) (ys : List β)
    (m : List Bool) (hx : xs.length = ys.length) :
    ((xs.zip m).filterMap (fun p => if p.2 then some p.1 else none)).length =
    ((ys.zip m).filterMap (fun p => if p.2 then some p.1 else none)).length := by
  induction xs generalizing ys m with
  | nil =>
    have : ys = [] := List.eq_nil_of_length_eq_zero hx.symm
    subst this
    rfl
  | cons a xt ih =>
    cases ys with
    | nil => simp at hx
    | cons b yt =>
      cases m with
      | nil => rfl
      | cons c mt =>
        have hx2 : xt.length = yt.length := by
          simpa using hx
        cases c with
        | true => simp [List.zip_cons_cons, List.filterMap_cons, ih yt mt hx2]
        | false => simp [List.zip_cons_cons, List.filterMap_cons, ih yt mt hx2]

lemma mask_filterMap_mem {α : Type} (xs : List α) (m : List Bool) (x : α)
    (hx : x ∈ (xs.zip m).filterMap (fun p => if p.2 then some p.1 else none)) :
    x ∈ xs := by
  rcases List.mem_filterMap.mp hx with ⟨p, hp, hpx⟩
  have hpx2 : p.1 = x := by
    by_cases hb : p.2 = true
    · rw [if_pos hb] at hpx
      exact Option.some.inj hpx
    · rw [if_neg hb] at hpx
      exact absurd hpx (Option.some_ne_none x).symm
  have := List.of_mem_zip hp
  rw [← hpx2]
  exact this.1

lemma display_restrict_lengths (freqs_array : List ℚ) (Pxx : List (List ℚ))
    (min_freq max_freq : ℚ) (hlen : freqs_array.length = Pxx.length) :
    (display_restrict freqs_array Pxx min_freq max_freq).1.length =
      (display_restrict freqs_array Pxx min_freq max_freq).2.length :=
  mask_filterMap_length freqs_array Pxx _ hlen

lemma display_restrict_row_mem (freqs_array : List ℚ) (Pxx : List (List ℚ))
    (min_freq max_freq : ℚ) (r : List ℚ)
    (hr : r ∈ (display_restrict freqs_array Pxx min_freq max_freq).2) :
    r ∈ Pxx :=
  mask_filterMap_mem Pxx _ r hr

/-- C5 counterexample: for the spectrogram output `freqs_array = [0, 1]`,
`time_array = [1, 2]`, `Pxx = [[101, 101], [101, 101]]` (two time columns)
with start timestamp and base frequency `0`, the Rendered View's time axis
is `[1, 2, 3]` — three entries against the grid's two time columns, because
line 102 inserts an extra leading time point. -/
theorem rendered_view_time_axis_longer_than_grid :
    (rendered_view [0, 1] [1, 2] [[101, 101], [101, 101]] 0 0 0).map
        (fun v => v.time_axis.length) = some 3 ∧
    (rendered_view [0, 1] [1, 2] [[101, 101], [101, 101]] 0 0 0).map
        (fun v => (v.grid.getD 0 []).length) = some 2 ∧
    (rendered_view [0, 1] [1, 2] [[101, 101], [101, 101]] 0 0 0).map
        (fun v => v.time_axis.length) ≠
      (rendered_view [0, 1] [1, 2] [[101, 101], [101, 101]] 0 0 0).map
        (fun v => (v.grid.getD 0 []).length) := by
  norm_num [rendered_view, detect_valid_frequency_range, rowExceeds, rowMax, eps,
    argmaxBool, firstTrue?, npGet, display_restrict, calibrate_time_axis, listMin,
    calibrated_freq_axis, List.filterMap_cons]

/-- C5 amended: in every Rendered View that reaches the sink, the
frequency axis has exactly as many entries as the grid has rows and every
grid row keeps one entry per time column, but the time axis has exactly
one MORE entry than the grid has time columns (the extra start point
inserted at line 102). -/
theorem rendered_view_axis_lengths (freqs_array time_array : List ℚ)
    (Pxx : List (List ℚ)) (utc_time freq_str_val base_freq_mhz : ℚ)
    (v : RenderedView)
    (hlen : freqs_array.length = Pxx.length)
    (hcols : ∀ r ∈ Pxx, r.length = time_array.length)
    (hv : rendered_view freqs_array time_array Pxx utc_time freq_str_val
      base_freq_mhz = some v) :
    v.freq_axis_mhz.length = v.grid.length ∧
    (∀ r ∈ v.grid, r.length = time_array.length) ∧
    v.time_axis.length = time_array.length + 1 := by
  rw [rendered_view] at hv
  cases hd : detect_valid_frequency_range freqs_array Pxx with
  | none =>
    rw [hd] at hv
    exact absurd hv (by simp)
  | some mm =>
    obtain ⟨mn, mx⟩ := mm
    rw [hd] at hv
    have hv2 : (⟨calibrate_time_axis utc_time time_array,
        calibrated_freq_axis freq_str_val base_freq_mhz
          (display_restrict freqs_array Pxx mn mx).1,
        (display_restrict freqs_array Pxx mn mx).2⟩ : RenderedView) = v :=
      Option.some.inj hv
    rw [← hv2]
    refine ⟨?_, ?_, ?_⟩
    · rw [calibrated_freq_axis]
      rw [List.length_map]
      exact display_restrict_lengths freqs_array Pxx mn mx hlen
    · intro r hr
      exact hcols r (display_restrict_row_mem freqs_array Pxx mn mx r hr)
    · rw [calibrate_time_axis]
      rw [List.length_cons, List.length_map]

/-- Witness for C5 (amended): the concrete view produced from
`freqs_array = [0, 1]`, `time_array = [1, 2]`,
`Pxx = [[101, 101], [101, 101]]` has a 2-entry frequency axis for its 2
grid rows and a 3-entry time axis for its 2 time columns. -/
theorem rendered_view_axis_lengths_witness :
    (⟨[1, 2, 3], [0, 1/1000000], [[101, 101], [101, 101]]⟩ :
      RenderedView).freq_axis_mhz.length =
      (⟨[1, 2, 3], [0, 1/1000000], [[101, 101], [101, 101]]⟩ :
        RenderedView).grid.length ∧
    (⟨[1, 2, 3], [0, 1/1000000], [[101, 101], [101, 101]]⟩ :
      RenderedView).time_axis.length = ([1, 2] : List ℚ).length + 1 := by
  have hv : rendered_view [0, 1] [1, 2] [[101, 101], [101, 101]] 0 0 0 =
      some ⟨[1, 2, 3], [0, 1/1000000], [[101, 101], [101, 101]]⟩ := by
    norm_num [rendered_view, detect_valid_frequency_range, rowExceeds, rowMax, eps,
      argmaxBool, firstTrue?, npGet, display_restrict, calibrate_time_axis, listMin,
      calibrated_freq_axis, List.filterMap_cons]
  have h := rendered_view_axis_lengths [0, 1] [1, 2] [[101, 101], [101, 101]]
    0 0 0 ⟨[1, 2, 3], [0, 1/1000000], [[101, 101], [101, 101]]⟩
    (by norm_num) (by norm_num) hv
  exact ⟨h.1, h.2.2⟩

/-- C3: the dB conversion at line 113, `10 * np.log10(Pxx_display)`,
applies NO epsilon floor, so a zero-power entry inside the detected band
produces a non-finite value. At the failing input `freqs_array = [0, 1]`,
`Pxx = [[101, 0], [101, 101]]`, both rows pass detection, the whole
surface is retained as `Pxx_display`, and its entry `(0, 1)` is `0`, whose
`log10` is `-inf`: `log_spec_all_finite` is `false` on the view's grid. -/
theorem rendered_view_grid_not_all_finite :
    (rendered_view [0, 1] [1, 2] [[101, 0], [101, 101]] 0 0 0).map
        (fun v => v.grid) = some [[101, 0], [101, 101]] ∧
    (rendered_view [0, 1] [1, 2] [[101, 0], [101, 101]] 0 0 0).map
        (fun v => log_spec_all_finite v.grid) = some false := by
  norm_num [rendered_view, detect_valid_frequency_range, rowExceeds, rowMax, eps,
    argmaxBool, firstTrue?, npGet, display_restrict, calibrate_time_axis, listMin,
    calibrated_freq_axis, log_spec_all_finite, List.filterMap_cons]

/-- Embeds the parameter handling of `scipy.signal.spectrogram` as invoked
at line 79 (`nperseg=NFFT, noverlap=noverlap`, default `('tukey', .25)`
window, nonempty input array). scipy first checks `nperseg < 1`
(`ValueError`); then `_triage_segments` CLIPS an `nperseg` greater than the
input length down to the input length, emitting only a `UserWarning`; only
then is `noverlap >= nperseg` (against the possibly clipped value) checked
(`ValueError`), while a negative `noverlap` is accepted and merely enlarges
the step. `.error ()` models a raised `ValueError` — which line 131 of
`plot_fft_freq_chart` catches, printing it and returning the bare sentinel
`-1` — and `.ok` returns the effective `(nperseg, noverlap)` with which the
transform proceeds to produce a surface. -/
def scipy_param_triage (input_length NFFT noverlap : ℤ) :
    Except Unit (ℤ × ℤ) :=
  if NFFT < 1 then .error ()
  else
    let nperseg := if input_length < NFFT then input_length else NFFT
    if nperseg ≤ noverlap then .error ()
    else .ok (nperseg, noverlap)

/-- Number of elements of `np.arange(start, stop, step)` for a positive
step: `ceil((stop - start) / step)`, clamped at zero. -/
def arangeLen (start stop step : ℚ) : ℕ :=
  (⌈(stop - start) / step⌉).toNat

/-- Embeds `np.arange(start, stop, step)`: `arangeLen` equally spaced
values from `start`. -/
def np_arange (start stop step : ℚ) : List ℚ :=
  (List.range (arangeLen start stop step)).map (fun (k : ℕ) => start + (k : ℚ) * step)

/-- Embeds `scipy.fft.rfftfreq(nperseg, 1/fs)`, the one-sided frequency
axis the transform returns: `nperseg // 2 + 1` ascending bins
`k * fs / nperseg`. -/
def np_rfftfreq (nperseg : ℕ) (fs : ℚ) : List ℚ :=
  (List.range (nperseg / 2 + 1)).map (fun (k : ℕ) => (k : ℚ) * fs / (nperseg : ℚ))

/-- Embeds the time axis `scipy.signal.spectrogram` returns:
`time = np.arange(nperseg/2, x.shape[axis] - nperseg/2 + 1, nperseg - noverlap) / fs`
(window centres in samples, divided by the sample rate). -/
def spectrogram_times (input_length nperseg noverlap : ℕ) (fs : ℚ) : List ℚ :=
  (np_arange ((nperseg : ℚ) / 2)
      ((input_length : ℚ) - (nperseg : ℚ) / 2 + 1)
      ((nperseg : ℚ) - (noverlap : ℚ))).map (fun t => t / fs)

lemma ceil_succ_div_toNat (M s : ℕ) (hs : 0 < s) :
    (⌈((M : ℚ) + 1) / (s : ℚ)⌉).toNat = M / s + 1 := by
  have hsQ : (0 : ℚ) < (s : ℚ) := by exact_mod_cast hs
  have hcast : ((((M / s + 1 : ℕ) : ℤ)) : ℚ) = ((M / s : ℕ) : ℚ) + 1 := by
    norm_cast
  have h1Q : ((M / s : ℕ) : ℚ) * (s : ℚ) ≤ (M : ℚ) := by
    exact_mod_cast Nat.div_mul_le_self M s
  have h2 : M + 1 ≤ (M / s + 1) * s := by
    have hdm := Nat.div_add_mod M s
    have hmod := Nat.mod_lt M hs
    have hexp : (M / s + 1) * s = s * (M / s) + s := by ring
    rw [hexp]
    linarith
  have h2Q : ((M : ℚ) + 1) ≤ (((M / s : ℕ) : ℚ) + 1) * (s : ℚ) := by
    exact_mod_cast h2
  have hceil : ⌈((M : ℚ) + 1) / (s : ℚ)⌉ = ((M / s + 1 : ℕ) : ℤ) := by
    rw [Int.ceil_eq_iff]
    constructor
    · rw [hcast]
      have hsimp : ((M / s : ℕ) : ℚ) + 1 - 1 = ((M / s : ℕ) : ℚ) := by ring
      rw [hsimp, lt_div_iff hsQ]
      linarith
    · rw [hcast, div_le_iff hsQ]
      exact h2Q
  rw [hceil]
  exact Int.toNat_natCast _

/-- C7: for valid parameters `0 ≤ V < N ≤ len(samples)`, the scipy call of
line 79 keeps `(N, V)` unchanged and the surface axes satisfy
`len(frequencies) = N / 2 + 1` and
`len(times) = (len(samples) - N) / (N - V) + 1`; at the boundaries the
formula yields `len(samples) - N + 1` columns for `V = N - 1` and exactly
one column for `N = len(samples)`. -/
theorem spectrogram_shape_formulas (L N V : ℕ) (fs : ℚ)
    (hVN : V < N) (hNL : N ≤ L) :
    scipy_param_triage (L : ℤ) (N : ℤ) (V : ℤ) = .ok ((N : ℤ), (V : ℤ)) ∧
    (np_rfftfreq N fs).length = N / 2 + 1 ∧
    (spectrogram_times L N V fs).length = (L - N) / (N - V) + 1 ∧
    (V = N - 1 → (spectrogram_times L N V fs).length = L - N + 1) ∧
    (N = L → (spectrogram_times L N V fs).length = 1) := by
  have htimes : (spectrogram_times L N V fs).length = (L - N) / (N - V) + 1 := by
    rw [spectrogram_times, List.length_map, np_arange, List.length_map,
      List.length_range, arangeLen]
    rw [show ((L : ℚ) - (N : ℚ) / 2 + 1 - (N : ℚ) / 2) = ((L - N : ℕ) : ℚ) + 1 by
      rw [Nat.cast_sub hNL]; ring]
    rw [show ((N : ℚ) - (V : ℚ)) = ((N - V : ℕ) : ℚ) by
      rw [Nat.cast_sub (le_of_lt hVN)]]
    exact ceil_succ_div_toNat (L - N) (N - V) (by omega)
  refine ⟨?_, ?_, htimes, ?_, ?_⟩
  · rw [scipy_param_triage, if_neg (by omega : ¬ ((N : ℤ) < 1))]
    simp only [if_neg (by omega : ¬ ((L : ℤ) < (N : ℤ)))]
    rw [if_neg (by omega : ¬ ((N : ℤ) ≤ (V : ℤ)))]
  · rw [np_rfftfreq, List.length_map, List.length_range]
  · intro hV
    rw [htimes]
    have h1 : N - V = 1 := by omega
    rw [h1, Nat.div_one]
  · intro hNLeq
    rw [htimes]
    have h0 : L - N = 0 := by omega
    rw [h0, Nat.zero_div]

/-- Witness for C7: `L = 10, N = 4, V = 3` (maximal overlap) gives 3
frequency bins and `(10 - 4) / 1 + 1 = 7` time columns; `L = N = 4, V = 0`
(single window) gives exactly one time column. -/
theorem spectrogram_shape_formulas_witness :
    scipy_param_triage 10 4 3 = .ok (4, 3) ∧
    (np_rfftfreq 4 1).length = 3 ∧
    (spectrogram_times 10 4 3 1).length = 7 ∧
    (spectrogram_times 4 4 0 1).length = 1 := by
  have h1 := spectrogram_shape_formulas 10 4 3 1 (by norm_num) (by norm_num)
  have h2 := spectrogram_shape_formulas 4 4 0 1 (by norm_num) (by norm_num)
  refine ⟨?_, ?_, ?_, ?_⟩
  · exact_mod_cast h1.1
  · exact_mod_cast h1.2.1
  · exact_mod_cast h1.2.2.1
  · exact h2.2.2.2.2 rfl

/-- C4: the spectrogram engine has no `0 ≤ V < N ≤ len(samples)` guard of
its own. At the failing input `len(samples) = 2, NFFT = 4, noverlap = 0`
(violating `N ≤ len(samples)`) the scipy triage merely warns and clips
`nperseg` to 2, then proceeds: the call yields the effective parameters
`(2, 0)` and produces a 2-bin by 1-column surface instead of failing with
any `ParameterFailure`. -/
theorem spectrogram_clips_oversized_window :
    scipy_param_triage 2 4 0 = .ok (2, 0) ∧
    (np_rfftfreq 2 8000).length = 2 ∧
    (spectrogram_times 2 2 0 8000).length = 1 := by
  refine ⟨rfl, ?_, ?_⟩
  · rw [np_rfftfreq, List.length_map, List.length_range]
  · have h := ceil_succ_div_toNat 0 2 (by norm_num)
    rw [spectrogram_times, List.length_map, np_arange, List.length_map,
      List.length_range, arangeLen]
    norm_num at h ⊢
    exact h

end WavToImg
